import Mathlib

/-!
# Verification of the merkle-tree-lib specification

Shallow embedding of the TypeScript sources of `merkle-tree-lib`:

* `src/tree/MerkleTree.ts` — the carry-forward Merkle tree (construction,
  proof generation, leaf queries, incremental update);
* `src/proof/MerkleProof.ts` and `src/proof/MerkleProofVerifier.ts` — proof
  values and the verifier;
* `src/hash/strategies/TaggedSha256Strategy.ts`, `Sha256Strategy.ts`,
  `src/hash/factory.ts` — the hash strategies and their factory;
* `src/merkleTree.ts` — the legacy duplicate-padding tree.

Buffers are modelled as lists of byte values (`Bytes := List Nat`, entries
below 256 on every reachable path), thrown errors as `Except MerkleError`,
and Node's `crypto` SHA-256 by an executable FIPS 180-4 implementation.
-/

/-! ## Bytes and SHA-256 (the external crypto primitive, FIPS 180-4) -/

abbrev Bytes := List Nat

/-- Truncate to a 32-bit word. -/
def w32 (x : Nat) : Nat := x % 4294967296

/-- 32-bit right rotation (arguments below 2^32). -/
def rotr32 (k w : Nat) : Nat := w32 ((w >>> k) ||| (w <<< (32 - k)))

/-- 32-bit bitwise complement. -/
def not32 (w : Nat) : Nat := w ^^^ 4294967295

/-- The 64 SHA-256 round constants. -/
def K256 : List Nat :=
  [1116352408, 1899447441, 3049323471, 3921009573, 961987163, 1508970993,
   2453635748, 2870763221, 3624381080, 310598401, 607225278, 1426881987,
   1925078388, 2162078206, 2614888103, 3248222580, 3835390401, 4022224774,
   264347078, 604807628, 770255983, 1249150122, 1555081692, 1996064986,
   2554220882, 2821834349, 2952996808, 3210313671, 3336571891, 3584528711,
   113926993, 338241895, 666307205, 773529912, 1294757372, 1396182291,
   1695183700, 1986661051, 2177026350, 2456956037, 2730485921, 2820302411,
   3259730800, 3345764771, 3516065817, 3600352804, 4094571909, 275423344,
   430227734, 506948616, 659060556, 883997877, 958139571, 1322822218,
   1537002063, 1747873779, 1955562222, 2024104815, 2227730452, 2361852424,
   2428436474, 2756734187, 3204031479, 3329325298]

/-- The SHA-256 working state: eight 32-bit words. -/
structure Sha256State where
  a : Nat
  b : Nat
  c : Nat
  d : Nat
  e : Nat
  f : Nat
  g : Nat
  h : Nat

/-- The SHA-256 initial hash value. -/
def sha256Init : Sha256State :=
  ⟨1779033703, 3144134277, 1013904242, 2773480762,
   1359893119, 2600822924, 528734635, 1541459225⟩

/-- One SHA-256 round for round constant `k` and schedule word `w`. -/
def sha256Round (s : Sha256State) (kw : Nat × Nat) : Sha256State :=
  let s1 := rotr32 6 s.e ^^^ rotr32 11 s.e ^^^ rotr32 25 s.e
  let ch := (s.e &&& s.f) ^^^ (not32 s.e &&& s.g)
  let t1 := w32 (s.h + s1 + ch + kw.1 + kw.2)
  let s0 := rotr32 2 s.a ^^^ rotr32 13 s.a ^^^ rotr32 22 s.a
  let mj := (s.a &&& s.b) ^^^ (s.a &&& s.c) ^^^ (s.b &&& s.c)
  let t2 := w32 (s0 + mj)
  ⟨w32 (t1 + t2), s.a, s.b, s.c, w32 (s.d + t1), s.e, s.f, s.g⟩

/-- Extend a message schedule by `k` further words. -/
def sha256Extend (ws : List Nat) : Nat → List Nat
  | 0 => ws
  | k + 1 =>
    let n := ws.length
    let x15 := ws.getD (n - 15) 0
    let x2 := ws.getD (n - 2) 0
    let sg0 := rotr32 7 x15 ^^^ rotr32 18 x15 ^^^ (x15 >>> 3)
    let sg1 := rotr32 17 x2 ^^^ rotr32 19 x2 ^^^ (x2 >>> 10)
    sha256Extend (ws ++ [w32 (ws.getD (n - 16) 0 + sg0 + ws.getD (n - 7) 0 + sg1)]) k

/-- Interpret a byte list as big-endian 32-bit words. -/
def bytesToWords : Bytes → List Nat
  | b0 :: b1 :: b2 :: b3 :: rest => (((b0 * 256 + b1) * 256 + b2) * 256 + b3) :: bytesToWords rest
  | _ => []

/-- Big-endian bytes of `v`, `k` bytes wide. -/
def natToBytesBE (k : Nat) (v : Nat) : Bytes :=
  match k with
  | 0 => []
  | k + 1 => natToBytesBE k (v / 256) ++ [v % 256]

/-- Compress one 64-byte block into the state. -/
def sha256Compress (s : Sha256State) (block : Bytes) : Sha256State :=
  let ws := sha256Extend (bytesToWords block) 48
  let t := (K256.zip ws).foldl sha256Round s
  ⟨w32 (s.a + t.a), w32 (s.b + t.b), w32 (s.c + t.c), w32 (s.d + t.d),
   w32 (s.e + t.e), w32 (s.f + t.f), w32 (s.g + t.g), w32 (s.h + t.h)⟩

/-- SHA-256 padding: append `0x80`, zeros, and the 64-bit big-endian bit length. -/
def sha256Pad (msg : Bytes) : Bytes :=
  msg ++ [0x80] ++ List.replicate ((119 - msg.length % 64) % 64) 0 ++ natToBytesBE 8 (8 * msg.length)

/-- Split into 64-byte blocks (`fuel` bounds the number of blocks; structural
recursion keeps the definition kernel-reducible). -/
def chunks64Go : Nat → Bytes → List Bytes
  | 0, _ => []
  | fuel + 1, l => if l.length = 0 then [] else l.take 64 :: chunks64Go fuel (l.drop 64)

/-- Split into 64-byte blocks. -/
def chunks64 (l : Bytes) : List Bytes := chunks64Go l.length l

/-- SHA-256 of a byte list. -/
def sha256 (msg : Bytes) : Bytes :=
  let s := (chunks64 (sha256Pad msg)).foldl sha256Compress sha256Init
  natToBytesBE 4 s.a ++ natToBytesBE 4 s.b ++ natToBytesBE 4 s.c ++ natToBytesBE 4 s.d ++
  natToBytesBE 4 s.e ++ natToBytesBE 4 s.f ++ natToBytesBE 4 s.g ++ natToBytesBE 4 s.h

/-! ## UTF-8 encoding (Node `Buffer.from(s, 'utf8')`) -/

/-- UTF-8 encoding of one Unicode scalar value. -/
def utf8Char (c : Char) : Bytes :=
  let n := c.toNat
  if n < 0x80 then [n]
  else if n < 0x800 then [0xc0 ||| (n >>> 6), 0x80 ||| (n &&& 0x3f)]
  else if n < 0x10000 then
    [0xe0 ||| (n >>> 12), 0x80 ||| ((n >>> 6) &&& 0x3f), 0x80 ||| (n &&& 0x3f)]
  else
    [0xf0 ||| (n >>> 18), 0x80 ||| ((n >>> 12) &&& 0x3f), 0x80 ||| ((n >>> 6) &&& 0x3f),
     0x80 ||| (n &&& 0x3f)]

/-- UTF-8 encoding of a string. -/
def utf8 (s : String) : Bytes := s.data.flatMap utf8Char

/-! ## Hash strategies (`src/hash/`)

A `HashStrategy` is a function from bytes to a digest (`hash(data)` in the
source); when the source passes a JavaScript string, every strategy first
encodes it as UTF-8 (`Buffer.from(data, 'utf8')`), modelled by `hashStr`. -/

structure HashStrategy where
  hash : Bytes → Bytes

/-- Hash string data: each strategy UTF-8–encodes a string argument first. -/
def HashStrategy.hashStr (s : HashStrategy) (data : String) : Bytes := s.hash (utf8 data)

/-- `Sha256Strategy.hash` (src/hash/strategies/Sha256Strategy.ts). -/
def Sha256Strategy : HashStrategy := ⟨sha256⟩

/-- `TaggedSha256Strategy` (src/hash/strategies/TaggedSha256Strategy.ts):
stores the tag and the tag hash precomputed by the constructor. -/
structure TaggedSha256Strategy where
  tag : String
  tagHash : Bytes
deriving DecidableEq

/-- The `TaggedSha256Strategy` constructor: precompute `tagHash = SHA-256(UTF8(tag))`. -/
def TaggedSha256Strategy.ofTag (tag : String) : TaggedSha256Strategy :=
  ⟨tag, sha256 (utf8 tag)⟩

/-- `TaggedSha256Strategy.hash`: `SHA256(tagHash || tagHash || data)`. -/
def TaggedSha256Strategy.hash (s : TaggedSha256Strategy) (data : Bytes) : Bytes :=
  sha256 (s.tagHash ++ s.tagHash ++ data)

/-- The `HashStrategy` view of a `TaggedSha256Strategy`. -/
def TaggedSha256Strategy.strategy (s : TaggedSha256Strategy) : HashStrategy := ⟨s.hash⟩

/-- `HashStrategyType` (src/hash/factory.ts). -/
inductive HashStrategyType
  | SHA256
  | TAGGED_SHA256
deriving DecidableEq

/-- The concrete strategy instances the factory can return. -/
inductive CreatedStrategy
  | sha256Strategy : CreatedStrategy
  | taggedSha256Strategy : TaggedSha256Strategy → CreatedStrategy
deriving DecidableEq

/-- `HashStrategyFactory.createStrategy` (src/hash/factory.ts). The tag option
defaults through JavaScript truthiness: `options?.tag || "Bitcoin_Transaction"`,
so both a missing tag and the (falsy) empty string select the default. -/
def HashStrategyFactory.createStrategy (type : HashStrategyType) (optTag : Option String) :
    CreatedStrategy :=
  match type with
  | .SHA256 => .sha256Strategy
  | .TAGGED_SHA256 =>
    let tag := match optTag with
      | some t => if t = "" then "Bitcoin_Transaction" else t
      | none => "Bitcoin_Transaction"
    .taggedSha256Strategy (TaggedSha256Strategy.ofTag tag)

/-! ## Errors

The source throws plain `Error` objects; the spec's taxonomy names the four
kinds. Thrown exceptions are modelled as `Except MerkleError`. -/

inductive MerkleError
  | emptyInput
  | indexOutOfRange
  | malformedEncoding
  | unsupportedStrategy
deriving DecidableEq

/-! ## Proof values (src/proof/MerkleProof.ts) -/

/-- `ProofDirection`: which side of the current hash the sibling sits on. -/
inductive ProofDirection
  | LEFT
  | RIGHT
deriving DecidableEq

/-- `MerkleProofElement`: a sibling digest and its direction. -/
structure MerkleProofElement where
  siblingHash : Bytes
  direction : ProofDirection
deriving DecidableEq

/-- `MerkleProof`: leaf data, leaf index, ordered elements, recorded root. -/
structure MerkleProof where
  leafData : String
  leafIndex : Int
  elements : List MerkleProofElement
  rootHash : Bytes
deriving DecidableEq

/-! ## The carry-forward Merkle tree (src/tree/MerkleTree.ts) -/

/-- One pass of `buildTree`'s inner loop (`for (let i = 0; i < n; i += 2)`):
hash complete pairs; carry a final unpaired digest forward unchanged. -/
def pairLevel (b : HashStrategy) : List Bytes → List Bytes
  | [] => []
  | [x] => [x]
  | x :: y :: rest => b.hash (x ++ y) :: pairLevel b rest

/-- `buildTree`'s outer loop with explicit fuel (structural recursion keeps it
kernel-reducible); `buildLevels` supplies adequate fuel. -/
def buildLevelsGo (b : HashStrategy) : Nat → List Bytes → List (List Bytes)
  | 0, lvl => [lvl]
  | fuel + 1, lvl =>
    if lvl.length ≤ 1 then [lvl] else lvl :: buildLevelsGo b fuel (pairLevel b lvl)

/-- `MerkleTree.buildTree`: all levels, leaf hashes first, root level last. -/
def buildLevels (b : HashStrategy) (lvl : List Bytes) : List (List Bytes) :=
  buildLevelsGo b lvl.length lvl

/-- The `MerkleTree` state: leaves, leaf hashes, levels, and the two strategies. -/
structure MerkleTree where
  leaves : List String
  leafHashes : List Bytes
  levels : List (List Bytes)
  leafHashStrategy : HashStrategy
  branchHashStrategy : HashStrategy

/-- The body of the `MerkleTree` constructor after the empty-input check. -/
def MerkleTree.make (data : List String) (ls bs : HashStrategy) : MerkleTree :=
  let leafHashes := data.map ls.hashStr
  ⟨data, leafHashes, buildLevels bs leafHashes, ls, bs⟩

/-- The `MerkleTree` constructor: throws on an empty data array. -/
def MerkleTree.create (data : List String) (ls bs : HashStrategy) :
    Except MerkleError MerkleTree :=
  if data.length = 0 then .error .emptyInput else .ok (MerkleTree.make data ls bs)

/-- The sole digest of the final level (`levels[levels.length - 1][0]`). -/
def rootOf (levels : List (List Bytes)) : Bytes := (levels.getLastD []).headD []

/-- `MerkleTree.getRoot`. -/
def MerkleTree.getRoot (t : MerkleTree) : Bytes := rootOf t.levels

/-- `MerkleTree.getLeafCount`. -/
def MerkleTree.getLeafCount (t : MerkleTree) : Nat := t.leaves.length

/-- `MerkleTree.getLeaf` with its bounds check. -/
def MerkleTree.getLeaf (t : MerkleTree) (index : Int) : Except MerkleError String :=
  if index < 0 ∨ (t.leaves.length : Int) ≤ index then .error .indexOutOfRange
  else .ok (t.leaves.getD index.toNat "")

/-- `MerkleTree.getLeafHash` with its bounds check (against `leafHashes.length`). -/
def MerkleTree.getLeafHash (t : MerkleTree) (index : Int) : Except MerkleError Bytes :=
  if index < 0 ∨ (t.leafHashes.length : Int) ≤ index then .error .indexOutOfRange
  else .ok (t.leafHashes.getD index.toNat [])

/-- `MerkleTree.findLeaf`: index of the first equal leaf, `-1` if absent. -/
def MerkleTree.findLeaf (t : MerkleTree) (data : String) : Int :=
  match t.leaves.findIdx? (fun leaf => leaf = data) with
  | some i => (i : Int)
  | none => -1

/-- `generateProof`'s level walk (`for (level = 0; level < levels.length - 1; level++)`):
collect the sibling element when the sibling index falls inside the level. -/
def proofElems : List (List Bytes) → Nat → List MerkleProofElement
  | [], _ => []
  | [_], _ => []
  | lvl :: l2 :: rest, idx =>
    let sibIdx := if idx % 2 = 1 then idx - 1 else idx + 1
    let tail := proofElems (l2 :: rest) (idx / 2)
    if sibIdx < lvl.length then
      ⟨lvl.getD sibIdx [], if idx % 2 = 1 then .LEFT else .RIGHT⟩ :: tail
    else tail

/-- `MerkleTree.generateProof` with its bounds check. -/
def MerkleTree.generateProof (t : MerkleTree) (index : Int) : Except MerkleError MerkleProof :=
  if index < 0 ∨ (t.leaves.length : Int) ≤ index then .error .indexOutOfRange
  else .ok ⟨t.leaves.getD index.toNat "", index, proofElems t.levels index.toNat, t.getRoot⟩

/-- `updateLeaf`'s recomputation loop: at each level write the parent slot of
the current index — the pair hash when the sibling exists, otherwise the
carried current node — then continue from the parent index. -/
def updatePath (b : HashStrategy) : List (List Bytes) → Nat → List (List Bytes)
  | [], _ => []
  | [lvl], _ => [lvl]
  | lvl :: nxt :: rest, idx =>
    let parentIdx := idx / 2
    let sibIdx := if idx % 2 = 1 then idx - 1 else idx + 1
    let newVal :=
      if lvl.length ≤ sibIdx then lvl.getD idx []
      else if idx % 2 = 1 then b.hash (lvl.getD sibIdx [] ++ lvl.getD idx [])
      else b.hash (lvl.getD idx [] ++ lvl.getD sibIdx [])
    lvl :: updatePath b (nxt.set parentIdx newVal :: rest) parentIdx
termination_by l _ => l.length
decreasing_by
  simp only [List.length_cons]
  omega

/-- `MerkleTree.updateLeaf`: bounds check, rewrite leaf data / leaf hash /
level 0, recompute the path to the root, return the updated tree (the source
mutates `this`) together with the returned new root. -/
def MerkleTree.updateLeaf (t : MerkleTree) (index : Int) (newData : String) :
    Except MerkleError (MerkleTree × Bytes) :=
  if index < 0 ∨ (t.leaves.length : Int) ≤ index then .error .indexOutOfRange
  else
    let i := index.toNat
    let newHash := t.leafHashStrategy.hashStr newData
    let levels0 := (t.levels.headD []).set i newHash :: t.levels.tail
    let newLevels := updatePath t.branchHashStrategy levels0 i
    let t' : MerkleTree :=
      ⟨t.leaves.set i newData, t.leafHashes.set i newHash, newLevels,
       t.leafHashStrategy, t.branchHashStrategy⟩
    .ok (t', rootOf newLevels)

/-! ## The verifier (src/proof/MerkleProofVerifier.ts) -/

structure MerkleProofVerifier where
  leafHashStrategy : HashStrategy
  branchHashStrategy : HashStrategy

/-- `applyProofElement`: concatenate by direction, then branch-hash. -/
def applyProofElement (v : MerkleProofVerifier) (currentHash : Bytes)
    (element : MerkleProofElement) : Bytes :=
  match element.direction with
  | .LEFT => v.branchHashStrategy.hash (element.siblingHash ++ currentHash)
  | .RIGHT => v.branchHashStrategy.hash (currentHash ++ element.siblingHash)

/-- `MerkleProofVerifier.verify`: recompute from the leaf and compare to the
recorded root (byte equality, never a thrown error). -/
def MerkleProofVerifier.verify (v : MerkleProofVerifier) (proof : MerkleProof) : Bool :=
  decide (proof.elements.foldl (applyProofElement v)
    (v.leafHashStrategy.hashStr proof.leafData) = proof.rootHash)

/-! ## Hex decoding (Node `Buffer.from(s, 'hex')`)

Node's hex decoder never throws: it decodes two-character pairs and stops at
the first invalid or incomplete pair, returning the bytes decoded so far. -/

/-- Value of one hexadecimal digit, if valid. -/
def hexDigit? (c : Char) : Option Nat :=
  if '0' ≤ c ∧ c ≤ '9' then some (c.toNat - '0'.toNat)
  else if 'a' ≤ c ∧ c ≤ 'f' then some (c.toNat - 'a'.toNat + 10)
  else if 'A' ≤ c ∧ c ≤ 'F' then some (c.toNat - 'A'.toNat + 10)
  else none

/-- Decode hex pairs until an invalid or incomplete pair. -/
def hexPairs : List Char → Bytes
  | c1 :: c2 :: rest =>
    match hexDigit? c1, hexDigit? c2 with
    | some hi, some lo => (16 * hi + lo) :: hexPairs rest
    | _, _ => []
  | _ => []

/-- `Buffer.from(s, 'hex')`. -/
def bufferFromHex (s : String) : Bytes := hexPairs s.data

/-- `MerkleProofVerifier.verifySimple`: decode the hex sibling digests and the
hex root, wrap them in a `MerkleProof` (index 0), and delegate to `verify`.
No statement in the source can throw, so every outcome is `.ok`. -/
def MerkleProofVerifier.verifySimple (v : MerkleProofVerifier) (leafData : String)
    (proof : List (String × ProofDirection)) (merkleRoot : String) :
    Except MerkleError Bool :=
  let elements := proof.map (fun p => MerkleProofElement.mk (bufferFromHex p.1) p.2)
  .ok (v.verify ⟨leafData, 0, elements, bufferFromHex merkleRoot⟩)

/-! ## The legacy tree (src/merkleTree.ts): duplicate-padding policy -/

/-- `computeTagHash` (src/merkleTree.ts). -/
def legacyTagHash (tag : String) : Bytes := sha256 (utf8 tag)

/-- `taggedHash` (src/merkleTree.ts): `SHA256(tagHash || tagHash || msg)`. -/
def legacyTaggedHash (tagHash msg : Bytes) : Bytes := sha256 (tagHash ++ tagHash ++ msg)

/-- The legacy pairing pass: hash consecutive pairs of an even-length level. -/
def legacyPairs (branchTagHash : Bytes) : List Bytes → List Bytes
  | x :: y :: rest => legacyTaggedHash branchTagHash (x ++ y) :: legacyPairs branchTagHash rest
  | _ => []

/-- Pad an odd-length level by duplicating its last node. -/
def dupPad (l : List Bytes) : List Bytes :=
  if l.length % 2 = 1 then l ++ [l.getLastD []] else l

/-- The legacy `buildTree` loop with fuel: store the padded level, recurse on
the pair hashes, stop at a single node. -/
def legacyBuildLevelsGo (branchTagHash : Bytes) : Nat → List Bytes → List (List Bytes)
  | 0, lvl => [lvl]
  | fuel + 1, lvl =>
    if lvl.length ≤ 1 then [lvl]
    else dupPad lvl :: legacyBuildLevelsGo branchTagHash fuel (legacyPairs branchTagHash (dupPad lvl))

/-- The legacy `buildTree` levels for a non-empty leaf-hash list. -/
def legacyBuildLevels (branchTagHash : Bytes) (lvl : List Bytes) : List (List Bytes) :=
  legacyBuildLevelsGo branchTagHash lvl.length lvl

/-- The legacy `MerkleTree` state (src/merkleTree.ts). -/
structure LegacyMerkleTree where
  leafHashes : List Bytes
  levels : List (List Bytes)
  root : Bytes
  tagHashLeaf : Bytes
  tagHashBranch : Bytes

/-- The legacy constructor: tag hashes, leaf hashes, levels and root; with no
leaves the root is the empty buffer and there are no levels. -/
def LegacyMerkleTree.create (leavesData : List String) (leafTag branchTag : String) :
    LegacyMerkleTree :=
  let thl := legacyTagHash leafTag
  let thb := legacyTagHash branchTag
  let leafHashes := leavesData.map (fun data => legacyTaggedHash thl (utf8 data))
  if leafHashes.length = 0 then ⟨leafHashes, [], [], thl, thb⟩
  else
    let levels := legacyBuildLevels thb leafHashes
    ⟨leafHashes, levels, rootOf levels, thl, thb⟩

/-- The legacy `getProof` level walk: push the sibling (right of an even
index with side 1, left of an odd index with side 0) at every level below the
root. -/
def legacyProofLoop : List (List Bytes) → Nat → List (Bytes × Nat)
  | [], _ => []
  | [_], _ => []
  | lvl :: l2 :: rest, idx =>
    let p := if idx % 2 = 0 then (lvl.getD (idx + 1) [], 1) else (lvl.getD (idx - 1) [], 0)
    p :: legacyProofLoop (l2 :: rest) (idx / 2)

/-- The legacy `MerkleTree.getProof`: an out-of-range index returns the empty
proof array instead of throwing. -/
def LegacyMerkleTree.getProof (t : LegacyMerkleTree) (index : Int) : List (Bytes × Nat) :=
  if index < 0 ∨ (t.leafHashes.length : Int) ≤ index then []
  else legacyProofLoop t.levels index.toNat

/-- A cheap injective-on-reachable-inputs strategy used to instantiate the
strategy-generic theorems at concrete inputs. -/
def testStrategy : HashStrategy := ⟨fun l => 7 :: l⟩

/-- The tagged SHA-256 strategy with the library's default tag. -/
def btcStrategy : HashStrategy := (TaggedSha256Strategy.ofTag "Bitcoin_Transaction").strategy

/-- The tagged-hash formula exactly as the specification states it:
`taggedHash(tag, msg) = SHA-256(tagHash || tagHash || msg)` with
`tagHash = SHA-256(UTF8(tag))`. -/
def taggedHashSpec (tag : String) (msg : Bytes) : Bytes :=
  sha256 (sha256 (utf8 tag) ++ sha256 (utf8 tag) ++ msg)

/-! ## Structural lemmas about the carry-forward build -/

theorem pairLevel_length (b : HashStrategy) :
    ∀ l : List Bytes, (pairLevel b l).length = l.length / 2 + l.length % 2
  | [] => by simp [pairLevel]
  | [_] => by simp [pairLevel]
  | _ :: _ :: rest => by
    simp only [pairLevel, List.length_cons, pairLevel_length b rest]
    omega

theorem pairLevel_length_lt (b : HashStrategy) (l : List Bytes) (h : 2 ≤ l.length) :
    (pairLevel b l).length < l.length := by
  rw [pairLevel_length]
  omega

theorem buildLevelsGo_congr (b : HashStrategy) :
    ∀ fuel₁ fuel₂ (lvl : List Bytes), lvl.length ≤ fuel₁ → lvl.length ≤ fuel₂ →
      buildLevelsGo b fuel₁ lvl = buildLevelsGo b fuel₂ lvl
  | 0, fuel₂, lvl, h₁, _ => by
    have hnil : lvl = [] := List.length_eq_zero.mp (Nat.le_zero.mp h₁)
    subst hnil
    cases fuel₂ <;> simp [buildLevelsGo]
  | fuel + 1, 0, lvl, _, h₂ => by
    have hnil : lvl = [] := List.length_eq_zero.mp (Nat.le_zero.mp h₂)
    subst hnil
    simp [buildLevelsGo]
  | fuel + 1, fuel' + 1, lvl, h₁, h₂ => by
    by_cases hs : lvl.length ≤ 1
    · simp [buildLevelsGo, hs]
    · have hlt := pairLevel_length b lvl
      have := buildLevelsGo_congr b fuel fuel' (pairLevel b lvl) (by omega) (by omega)
      simp [buildLevelsGo, hs, this]

theorem buildLevels_small (b : HashStrategy) (lvl : List Bytes) (h : lvl.length ≤ 1) :
    buildLevels b lvl = [lvl] := by
  unfold buildLevels
  rcases Nat.le_one_iff_eq_zero_or_eq_one.mp h with h0 | h1
  · rw [h0]; simp [buildLevelsGo]
  · rw [h1]; simp [buildLevelsGo, h]

theorem buildLevels_step (b : HashStrategy) (lvl : List Bytes) (h : 2 ≤ lvl.length) :
    buildLevels b lvl = lvl :: buildLevels b (pairLevel b lvl) := by
  unfold buildLevels
  obtain ⟨k, hk⟩ : ∃ k, lvl.length = k + 1 := ⟨lvl.length - 1, by omega⟩
  rw [hk]
  have hlt := pairLevel_length b lvl
  have hcongr := buildLevelsGo_congr b k (pairLevel b lvl).length (pairLevel b lvl)
    (by omega) (Nat.le_refl _)
  simp only [buildLevelsGo, if_neg (by omega : ¬lvl.length ≤ 1), hcongr]

theorem buildLevels_head (b : HashStrategy) (lvl : List Bytes) :
    buildLevels b lvl = lvl :: (buildLevels b lvl).tail := by
  by_cases h : lvl.length ≤ 1
  · rw [buildLevels_small b lvl h]; rfl
  · rw [buildLevels_step b lvl (by omega)]; rfl

theorem buildLevels_ne_nil (b : HashStrategy) (lvl : List Bytes) :
    buildLevels b lvl ≠ [] := by
  rw [buildLevels_head]; simp

theorem rootOf_cons (lvl : List Bytes) (rest : List (List Bytes)) (h : rest ≠ []) :
    rootOf (lvl :: rest) = rootOf rest := by
  unfold rootOf
  cases rest with
  | nil => exact absurd rfl h
  | cons r rs => simp [List.getLastD_cons]

/-- A complete pair `(2j, 2j+1)` hashes to slot `j` of the next level. -/
theorem pairLevel_getD_pair (b : HashStrategy) :
    ∀ (l : List Bytes) (j : Nat), 2 * j + 1 < l.length →
      (pairLevel b l).getD j [] = b.hash (l.getD (2 * j) [] ++ l.getD (2 * j + 1) [])
  | [], j, h => by simp at h
  | [x], j, h => by simp at h
  | x :: y :: rest, 0, h => by simp [pairLevel]
  | x :: y :: rest, j + 1, h => by
    have hr : 2 * j + 1 < rest.length := by simp at h; omega
    have ih := pairLevel_getD_pair b rest j hr
    have e1 : 2 * (j + 1) = 2 * j + 1 + 1 := by omega
    have e2 : 2 * (j + 1) + 1 = 2 * j + 1 + 1 + 1 := by omega
    simp only [pairLevel, e1, e2, List.getD_cons_succ, ih]

/-- An unpaired final node (odd level length) is carried to slot `j` unchanged. -/
theorem pairLevel_getD_carry (b : HashStrategy) :
    ∀ (l : List Bytes) (j : Nat), 2 * j + 1 = l.length →
      (pairLevel b l).getD j [] = l.getD (2 * j) []
  | [], j, h => by simp at h
  | [x], j, h => by
    have : j = 0 := by simp at h; omega
    subst this
    simp [pairLevel]
  | x :: y :: rest, 0, h => by simp at h
  | x :: y :: rest, j + 1, h => by
    have hr : 2 * j + 1 = rest.length := by simp at h; omega
    have ih := pairLevel_getD_carry b rest j hr
    have e1 : 2 * (j + 1) = 2 * j + 1 + 1 := by omega
    simp only [pairLevel, e1, List.getD_cons_succ, ih]

/-- Updating the left member of a complete pair rewrites exactly slot `j`. -/
theorem pairLevel_set_left (b : HashStrategy) :
    ∀ (l : List Bytes) (j : Nat) (v : Bytes), 2 * j + 1 < l.length →
      pairLevel b (l.set (2 * j) v) =
        (pairLevel b l).set j (b.hash (v ++ l.getD (2 * j + 1) []))
  | [], j, v, h => by simp at h
  | [x], j, v, h => by simp at h
  | x :: y :: rest, 0, v, h => by simp [pairLevel]
  | x :: y :: rest, j + 1, v, h => by
    have hr : 2 * j + 1 < rest.length := by simp at h; omega
    have ih := pairLevel_set_left b rest j v hr
    have e1 : 2 * (j + 1) = 2 * j + 1 + 1 := by omega
    have e2 : 2 * (j + 1) + 1 = 2 * j + 1 + 1 + 1 := by omega
    simp only [pairLevel, e1, e2, List.set_cons_succ, List.getD_cons_succ]
    exact congrArg (List.cons (b.hash (x ++ y))) ih

/-- Updating the right member of a complete pair rewrites exactly slot `j`. -/
theorem pairLevel_set_right (b : HashStrategy) :
    ∀ (l : List Bytes) (j : Nat) (v : Bytes), 2 * j + 1 < l.length →
      pairLevel b (l.set (2 * j + 1) v) =
        (pairLevel b l).set j (b.hash (l.getD (2 * j) [] ++ v))
  | [], j, v, h => by simp at h
  | [x], j, v, h => by simp at h
  | x :: y :: rest, 0, v, h => by simp [pairLevel]
  | x :: y :: rest, j + 1, v, h => by
    have hr : 2 * j + 1 < rest.length := by simp at h; omega
    have ih := pairLevel_set_right b rest j v hr
    have e1 : 2 * (j + 1) = 2 * j + 1 + 1 := by omega
    have e2 : 2 * (j + 1) + 1 = 2 * j + 1 + 1 + 1 := by omega
    simp only [pairLevel, e1, e2, List.set_cons_succ, List.getD_cons_succ]
    exact congrArg (List.cons (b.hash (x ++ y))) ih

/-- Updating an unpaired final node carries the new value to slot `j`. -/
theorem pairLevel_set_carry (b : HashStrategy) :
    ∀ (l : List Bytes) (j : Nat) (v : Bytes), 2 * j + 1 = l.length →
      pairLevel b (l.set (2 * j) v) = (pairLevel b l).set j v
  | [], j, v, h => by simp at h
  | [x], j, v, h => by
    have : j = 0 := by simp at h; omega
    subst this
    simp [pairLevel]
  | x :: y :: rest, 0, v, h => by simp at h
  | x :: y :: rest, j + 1, v, h => by
    have hr : 2 * j + 1 = rest.length := by simp at h; omega
    have ih := pairLevel_set_carry b rest j v hr
    have e1 : 2 * (j + 1) = 2 * j + 1 + 1 := by omega
    simp only [pairLevel, e1, List.set_cons_succ]
    exact congrArg (List.cons (b.hash (x ++ y))) ih

/-! ## The proof walk against the built levels -/

theorem proofElems_odd (lvl l2 : List Bytes) (rest : List (List Bytes)) (j : Nat)
    (h : 2 * j + 1 < lvl.length) :
    proofElems (lvl :: l2 :: rest) (2 * j + 1) =
      ⟨lvl.getD (2 * j) [], .LEFT⟩ :: proofElems (l2 :: rest) j := by
  have hm : (2 * j + 1) % 2 = 1 := by omega
  have hd : (2 * j + 1) / 2 = j := by omega
  have hsub : 2 * j + 1 - 1 = 2 * j := by omega
  simp only [proofElems, hm, hd, hsub, eq_self_iff_true, if_true]
  rw [if_pos (by omega : 2 * j < lvl.length)]

theorem proofElems_even (lvl l2 : List Bytes) (rest : List (List Bytes)) (j : Nat)
    (h : 2 * j + 1 < lvl.length) :
    proofElems (lvl :: l2 :: rest) (2 * j) =
      ⟨lvl.getD (2 * j + 1) [], .RIGHT⟩ :: proofElems (l2 :: rest) j := by
  have hm : ¬(2 * j) % 2 = 1 := by omega
  have hd : (2 * j) / 2 = j := by omega
  simp only [proofElems, hd, if_neg hm]
  rw [if_pos h]

theorem proofElems_carry (lvl l2 : List Bytes) (rest : List (List Bytes)) (j : Nat)
    (h : lvl.length ≤ 2 * j + 1) :
    proofElems (lvl :: l2 :: rest) (2 * j) = proofElems (l2 :: rest) j := by
  have hm : ¬(2 * j) % 2 = 1 := by omega
  have hd : (2 * j) / 2 = j := by omega
  simp only [proofElems, hd, if_neg hm]
  rw [if_neg (by omega : ¬2 * j + 1 < lvl.length)]

/-- Verification chain: folding `applyProofElement` over the elements collected
along the built levels, starting from the digest at a valid index of the base
level, recomputes the root of those levels. -/
theorem foldl_proofElems (v : MerkleProofVerifier) (lvl : List Bytes) (i : Nat)
    (h : i < lvl.length) :
    (proofElems (buildLevels v.branchHashStrategy lvl) i).foldl (applyProofElement v)
      (lvl.getD i []) = rootOf (buildLevels v.branchHashStrategy lvl) := by
  by_cases hs : lvl.length ≤ 1
  case pos =>
    obtain ⟨x, rfl⟩ : ∃ x, lvl = [x] := by
      match lvl, h, hs with
      | [x], _, _ => exact ⟨x, rfl⟩
      | a :: b :: l, _, hs => simp at hs
    have hi : i = 0 := by
      simp only [List.length_cons, List.length_nil] at h
      omega
    subst hi
    rw [buildLevels_small _ _ hs]
    simp [proofElems, rootOf]
  case neg =>
    have h2 : 2 ≤ lvl.length := by omega
    have hplen := pairLevel_length v.branchHashStrategy lvl
    have hi2 : i / 2 < (pairLevel v.branchHashStrategy lvl).length := by omega
    have ih := foldl_proofElems v (pairLevel v.branchHashStrategy lvl) (i / 2) hi2
    have hstack : buildLevels v.branchHashStrategy lvl =
        lvl :: pairLevel v.branchHashStrategy lvl ::
          (buildLevels v.branchHashStrategy (pairLevel v.branchHashStrategy lvl)).tail := by
      rw [buildLevels_step _ _ h2]
      exact congrArg _ (buildLevels_head _ _)
    rw [hstack]
    rw [rootOf_cons _ _ (by simp)]
    by_cases hpar : i % 2 = 1
    case pos =>
      obtain ⟨j, rfl⟩ : ∃ j, i = 2 * j + 1 := ⟨i / 2, by omega⟩
      have hj : (2 * j + 1) / 2 = j := by omega
      have happ : applyProofElement v (lvl.getD (2 * j + 1) []) ⟨lvl.getD (2 * j) [], .LEFT⟩ =
          (pairLevel v.branchHashStrategy lvl).getD j [] := by
        rw [pairLevel_getD_pair _ _ _ h]
        rfl
      rw [proofElems_odd _ _ _ _ h, List.foldl_cons, happ, ← buildLevels_head]
      rw [hj] at ih
      exact ih
    case neg =>
      obtain ⟨j, rfl⟩ : ∃ j, i = 2 * j := ⟨i / 2, by omega⟩
      have hj : (2 * j) / 2 = j := by omega
      by_cases hsib : 2 * j + 1 < lvl.length
      case pos =>
        rw [proofElems_even _ _ _ _ hsib, List.foldl_cons]
        have happ : applyProofElement v (lvl.getD (2 * j) []) ⟨lvl.getD (2 * j + 1) [], .RIGHT⟩ =
            (pairLevel v.branchHashStrategy lvl).getD j [] := by
          rw [pairLevel_getD_pair _ _ _ hsib]
          rfl
        rw [happ, ← buildLevels_head]
        rw [hj] at ih
        exact ih
      case neg =>
        have hcarry : 2 * j + 1 = lvl.length := by omega
        rw [proofElems_carry _ _ _ _ (by omega)]
        have hcur : lvl.getD (2 * j) [] = (pairLevel v.branchHashStrategy lvl).getD j [] :=
          (pairLevel_getD_carry _ _ _ hcarry).symm
        rw [hcur, ← buildLevels_head]
        rw [hj] at ih
        exact ih
termination_by lvl.length
decreasing_by
  exact pairLevel_length_lt _ _ (by omega)

theorem getD_map_of_lt {α β : Type} (f : α → β) (dA : α) (dB : β) :
    ∀ (l : List α) (n : Nat), n < l.length → (l.map f).getD n dB = f (l.getD n dA)
  | [], n, h => absurd h (by simp)
  | a :: l, 0, _ => rfl
  | a :: l, n + 1, h => getD_map_of_lt f dA dB l n (by simpa using h)

/-- A freshly built tree's `generateProof` succeeds on a valid index, reports
that leaf's data, and verifies under a verifier with the same strategies. -/
theorem make_generateProof_verify (data : List String) (ls bs : HashStrategy) (i : Int)
    (h0 : 0 ≤ i) (h1 : i < (data.length : Int)) :
    ∃ p : MerkleProof,
      (MerkleTree.make data ls bs).generateProof i = .ok p ∧
      p.leafData = data.getD i.toNat "" ∧
      p.rootHash = (MerkleTree.make data ls bs).getRoot ∧
      MerkleProofVerifier.verify ⟨ls, bs⟩ p = true := by
  have hlen : i.toNat < data.length := by omega
  have hne : ¬(i < 0 ∨ ((MerkleTree.make data ls bs).leaves.length : Int) ≤ i) := by
    simp only [MerkleTree.make]
    omega
  refine ⟨⟨data.getD i.toNat "", i, proofElems (buildLevels bs (data.map ls.hashStr)) i.toNat,
          rootOf (buildLevels bs (data.map ls.hashStr))⟩, ?_, rfl, rfl, ?_⟩
  · unfold MerkleTree.generateProof
    rw [if_neg hne]
    rfl
  · unfold MerkleProofVerifier.verify
    rw [decide_eq_true_iff]
    have hstart : HashStrategy.hashStr ls (data.getD i.toNat "") =
        (data.map ls.hashStr).getD i.toNat [] :=
      (getD_map_of_lt ls.hashStr "" [] data i.toNat hlen).symm
    have hmaplen : i.toNat < (data.map ls.hashStr).length := by
      rw [List.length_map]
      exact hlen
    have := foldl_proofElems ⟨ls, bs⟩ (data.map ls.hashStr) i.toNat hmaplen
    rw [hstart]
    exact this

/-- Constructor inversion: a successful `create` yields exactly `make` on a
non-empty data array. -/
theorem create_ok_elim {data : List String} {ls bs : HashStrategy} {t : MerkleTree}
    (ht : MerkleTree.create data ls bs = .ok t) :
    t = MerkleTree.make data ls bs ∧ data ≠ [] := by
  unfold MerkleTree.create at ht
  by_cases h : data.length = 0
  · rw [if_pos h] at ht
    exact absurd ht (by simp)
  · rw [if_neg h] at ht
    simp only [Except.ok.injEq] at ht
    refine ⟨ht.symm, ?_⟩
    intro hnil
    subst hnil
    simp at h

/-- C1: Proof round-trip — for every MerkleTree constructed from a non-empty
leaf sequence with a leaf strategy and a branch strategy, and for every valid
leaf index i (0 ≤ i < leafCount), a MerkleProofVerifier constructed with the
same two strategies returns true on verify(generateProof(i)). -/
theorem claim1_proof_roundtrip (data : List String) (ls bs : HashStrategy) (t : MerkleTree)
    (ht : MerkleTree.create data ls bs = .ok t) (i : Int) (h0 : 0 ≤ i)
    (h1 : i < (data.length : Int)) :
    ∃ p : MerkleProof, t.generateProof i = .ok p ∧
      MerkleProofVerifier.verify ⟨ls, bs⟩ p = true := by
  obtain ⟨rfl, -⟩ := create_ok_elim ht
  obtain ⟨p, hgen, -, -, hver⟩ := make_generateProof_verify data ls bs i h0 h1
  exact ⟨p, hgen, hver⟩

/-- Witness for C1 at a concrete three-leaf tree and index 2. -/
theorem claim1_witness :
    MerkleTree.create ["aa", "bb", "cc"] testStrategy testStrategy =
      .ok (MerkleTree.make ["aa", "bb", "cc"] testStrategy testStrategy) ∧
    (0 : Int) ≤ 2 ∧ (2 : Int) < ((["aa", "bb", "cc"].length : Nat) : Int) ∧
    ∃ p : MerkleProof,
      (MerkleTree.make ["aa", "bb", "cc"] testStrategy testStrategy).generateProof 2 = .ok p ∧
      MerkleProofVerifier.verify ⟨testStrategy, testStrategy⟩ p = true :=
  ⟨rfl, by decide, by decide,
   claim1_proof_roundtrip ["aa", "bb", "cc"] testStrategy testStrategy
     (MerkleTree.make ["aa", "bb", "cc"] testStrategy testStrategy) rfl 2 (by decide) (by decide)⟩

theorem getLastD_default_irrel {α : Type} (l : List α) (d1 d2 : α) (h : l ≠ []) :
    l.getLastD d1 = l.getLastD d2 := by
  cases l with
  | nil => exact absurd rfl h
  | cons a t => rw [List.getLastD_cons, List.getLastD_cons]

/-- The final level of the built tree holds exactly one digest. -/
theorem buildLevels_getLastD_length (b : HashStrategy) (lvl : List Bytes) (h : lvl ≠ []) :
    ((buildLevels b lvl).getLastD []).length = 1 := by
  by_cases hs : lvl.length ≤ 1
  case pos =>
    obtain ⟨x, rfl⟩ : ∃ x, lvl = [x] := by
      match lvl, h, hs with
      | [x], _, _ => exact ⟨x, rfl⟩
      | a :: b :: l, _, hs => simp at hs
    rw [buildLevels_small _ _ hs]
    rfl
  case neg =>
    have h2 : 2 ≤ lvl.length := by omega
    have hplen := pairLevel_length b lvl
    have hne' : pairLevel b lvl ≠ [] := by
      intro hn
      rw [hn] at hplen
      simp at hplen
      omega
    have ih := buildLevels_getLastD_length b (pairLevel b lvl) hne'
    rw [buildLevels_step _ _ h2, List.getLastD_cons,
        getLastD_default_irrel _ lvl [] (buildLevels_ne_nil _ _)]
    exact ih
termination_by lvl.length
decreasing_by
  exact pairLevel_length_lt _ _ (by omega)

/-- C3: Carry-forward build rule — for every level of length n ≥ 2 during
construction, each complete pair (2j, 2j+1) produces the parent
`branchStrategy.hash(concat(left, right))`; when n is odd the final unpaired
digest is placed into the next level unchanged; the next level's length is
`n / 2 + n % 2`; levels are derived repeatedly (the built stack is the level
followed by the stack over the derived level) until a single digest — the
root level — remains. -/
theorem claim3_carry_forward_build (bs : HashStrategy) (lvl : List Bytes)
    (hn : 2 ≤ lvl.length) :
    (∀ j : Nat, 2 * j + 1 < lvl.length →
      (pairLevel bs lvl).getD j [] = bs.hash (lvl.getD (2 * j) [] ++ lvl.getD (2 * j + 1) [])) ∧
    (lvl.length % 2 = 1 →
      (pairLevel bs lvl).getD (lvl.length / 2) [] = lvl.getD (lvl.length - 1) []) ∧
    (pairLevel bs lvl).length = lvl.length / 2 + lvl.length % 2 ∧
    buildLevels bs lvl = lvl :: buildLevels bs (pairLevel bs lvl) ∧
    ((buildLevels bs lvl).getLastD []).length = 1 := by
  refine ⟨fun j hj => pairLevel_getD_pair bs lvl j hj, fun hodd => ?_,
          pairLevel_length bs lvl, buildLevels_step bs lvl hn,
          buildLevels_getLastD_length bs lvl ?_⟩
  · have h1 : 2 * (lvl.length / 2) + 1 = lvl.length := by omega
    have h2 : 2 * (lvl.length / 2) = lvl.length - 1 := by omega
    rw [pairLevel_getD_carry bs lvl (lvl.length / 2) h1, h2]
  · intro hnil
    subst hnil
    simp at hn

/-- Witness for C3 at a concrete three-digest level. -/
theorem claim3_witness :
    2 ≤ ([[0], [1], [2]] : List Bytes).length ∧
    ((∀ j : Nat, 2 * j + 1 < ([[0], [1], [2]] : List Bytes).length →
      (pairLevel testStrategy [[0], [1], [2]]).getD j [] =
        testStrategy.hash (([[0], [1], [2]] : List Bytes).getD (2 * j) [] ++
          ([[0], [1], [2]] : List Bytes).getD (2 * j + 1) [])) ∧
    (([[0], [1], [2]] : List Bytes).length % 2 = 1 →
      (pairLevel testStrategy [[0], [1], [2]]).getD (([[0], [1], [2]] : List Bytes).length / 2) [] =
        ([[0], [1], [2]] : List Bytes).getD (([[0], [1], [2]] : List Bytes).length - 1) []) ∧
    (pairLevel testStrategy [[0], [1], [2]]).length =
      ([[0], [1], [2]] : List Bytes).length / 2 + ([[0], [1], [2]] : List Bytes).length % 2 ∧
    buildLevels testStrategy [[0], [1], [2]] =
      [[0], [1], [2]] :: buildLevels testStrategy (pairLevel testStrategy [[0], [1], [2]]) ∧
    ((buildLevels testStrategy [[0], [1], [2]]).getLastD []).length = 1) :=
  ⟨by decide, claim3_carry_forward_build testStrategy [[0], [1], [2]] (by decide)⟩

/-! ## The update walk against the built levels -/

theorem getD_set_self {α : Type} :
    ∀ (l : List α) (i : Nat) (v d : α), i < l.length → (l.set i v).getD i d = v
  | [], i, v, d, h => absurd h (by simp)
  | a :: t, 0, v, d, _ => rfl
  | a :: t, i + 1, v, d, h => getD_set_self t i v d (by simpa using h)

theorem getD_set_ne {α : Type} :
    ∀ (l : List α) (i j : Nat) (v d : α), i ≠ j → (l.set i v).getD j d = l.getD j d
  | [], _, _, _, _, _ => by simp
  | a :: t, 0, 0, v, d, h => absurd rfl h
  | a :: t, 0, j + 1, v, d, _ => rfl
  | a :: t, i + 1, 0, v, d, _ => rfl
  | a :: t, i + 1, j + 1, v, d, h => getD_set_ne t i j v d (fun he => h (by omega))

theorem updatePath_odd (b : HashStrategy) (lvl nxt : List Bytes) (rest : List (List Bytes))
    (j : Nat) (h : 2 * j + 1 < lvl.length) :
    updatePath b (lvl :: nxt :: rest) (2 * j + 1) =
      lvl :: updatePath b
        (nxt.set j (b.hash (lvl.getD (2 * j) [] ++ lvl.getD (2 * j + 1) [])) :: rest) j := by
  have hm : (2 * j + 1) % 2 = 1 := by omega
  have hd : (2 * j + 1) / 2 = j := by omega
  have hsub : 2 * j + 1 - 1 = 2 * j := by omega
  simp only [updatePath, hm, hd, hsub, eq_self_iff_true, if_true]
  rw [if_neg (by omega : ¬lvl.length ≤ 2 * j)]

theorem updatePath_even (b : HashStrategy) (lvl nxt : List Bytes) (rest : List (List Bytes))
    (j : Nat) (h : 2 * j + 1 < lvl.length) :
    updatePath b (lvl :: nxt :: rest) (2 * j) =
      lvl :: updatePath b
        (nxt.set j (b.hash (lvl.getD (2 * j) [] ++ lvl.getD (2 * j + 1) [])) :: rest) j := by
  have hm : ¬(2 * j) % 2 = 1 := by omega
  have hd : (2 * j) / 2 = j := by omega
  simp only [updatePath, hd, if_neg hm]
  rw [if_neg (by omega : ¬lvl.length ≤ 2 * j + 1)]

theorem updatePath_carry (b : HashStrategy) (lvl nxt : List Bytes) (rest : List (List Bytes))
    (j : Nat) (h : lvl.length ≤ 2 * j + 1) :
    updatePath b (lvl :: nxt :: rest) (2 * j) =
      lvl :: updatePath b (nxt.set j (lvl.getD (2 * j) []) :: rest) j := by
  have hm : ¬(2 * j) % 2 = 1 := by omega
  have hd : (2 * j) / 2 = j := by omega
  simp only [updatePath, hd, if_neg hm]
  rw [if_pos h]

/-- `updateLeaf`'s path recomputation, run over the stored levels with slot `i`
of the base level rewritten, reproduces a full rebuild over the updated base
level. -/
theorem updatePath_buildLevels (b : HashStrategy) (lvl : List Bytes) (i : Nat) (v : Bytes)
    (h : i < lvl.length) :
    updatePath b (lvl.set i v :: (buildLevels b lvl).tail) i =
      buildLevels b (lvl.set i v) := by
  by_cases hs : lvl.length ≤ 1
  case pos =>
    have htail : (buildLevels b lvl).tail = [] := by
      rw [buildLevels_small _ _ hs]
      rfl
    rw [htail, buildLevels_small _ _ (by simpa using hs)]
    simp only [updatePath]
  case neg =>
    have h2 : 2 ≤ lvl.length := by omega
    have hset2 : 2 ≤ (lvl.set i v).length := by simpa using h2
    have hplen := pairLevel_length b lvl
    have htail : (buildLevels b lvl).tail = buildLevels b (pairLevel b lvl) := by
      rw [buildLevels_step _ _ h2]
      rfl
    rw [htail, buildLevels_head b (pairLevel b lvl), buildLevels_step _ _ hset2]
    by_cases hpar : i % 2 = 1
    case pos =>
      obtain ⟨j, rfl⟩ : ∃ j, i = 2 * j + 1 := ⟨i / 2, by omega⟩
      have hj : j < (pairLevel b lvl).length := by omega
      have hlen' : 2 * j + 1 < (lvl.set (2 * j + 1) v).length := by simpa using h
      rw [updatePath_odd _ _ _ _ _ hlen']
      have hg1 : (lvl.set (2 * j + 1) v).getD (2 * j) [] = lvl.getD (2 * j) [] :=
        getD_set_ne lvl (2 * j + 1) (2 * j) v [] (by omega)
      have hg2 : (lvl.set (2 * j + 1) v).getD (2 * j + 1) [] = v :=
        getD_set_self lvl (2 * j + 1) v [] h
      rw [hg1, hg2, pairLevel_set_right b lvl j v h]
      exact congrArg _ (updatePath_buildLevels b (pairLevel b lvl) j
        (b.hash (lvl.getD (2 * j) [] ++ v)) hj)
    case neg =>
      obtain ⟨j, rfl⟩ : ∃ j, i = 2 * j := ⟨i / 2, by omega⟩
      have hj : j < (pairLevel b lvl).length := by omega
      by_cases hsib : 2 * j + 1 < lvl.length
      case pos =>
        have hlen' : 2 * j + 1 < (lvl.set (2 * j) v).length := by simpa using hsib
        rw [updatePath_even _ _ _ _ _ hlen']
        have hg1 : (lvl.set (2 * j) v).getD (2 * j) [] = v :=
          getD_set_self lvl (2 * j) v [] h
        have hg2 : (lvl.set (2 * j) v).getD (2 * j + 1) [] = lvl.getD (2 * j + 1) [] :=
          getD_set_ne lvl (2 * j) (2 * j + 1) v [] (by omega)
        rw [hg1, hg2, pairLevel_set_left b lvl j v hsib]
        exact congrArg _ (updatePath_buildLevels b (pairLevel b lvl) j
          (b.hash (v ++ lvl.getD (2 * j + 1) [])) hj)
      case neg =>
        have hcarry : 2 * j + 1 = lvl.length := by omega
        have hlen' : (lvl.set (2 * j) v).length ≤ 2 * j + 1 := by
          simp only [List.length_set]
          omega
        rw [updatePath_carry _ _ _ _ _ hlen']
        have hg1 : (lvl.set (2 * j) v).getD (2 * j) [] = v :=
          getD_set_self lvl (2 * j) v [] h
        rw [hg1, pairLevel_set_carry b lvl j v hcarry]
        exact congrArg _ (updatePath_buildLevels b (pairLevel b lvl) j v hj)
termination_by lvl.length
decreasing_by
  all_goals exact pairLevel_length_lt _ _ (by omega)

theorem map_set {α β : Type} (f : α → β) :
    ∀ (l : List α) (n : Nat) (a : α), (l.set n a).map f = (l.map f).set n (f a)
  | [], _, _ => by simp
  | x :: t, 0, a => rfl
  | x :: t, n + 1, a => by
    simp only [List.set_cons_succ, List.map_cons, map_set f t n a]

theorem buildLevels_headD (b : HashStrategy) (lvl : List Bytes) :
    (buildLevels b lvl).headD [] = lvl := by
  rw [buildLevels_head b lvl]
  rfl

/-- `updateLeaf` on a freshly built tree at a valid index produces exactly the
freshly built tree over the updated data, and returns its root. -/
theorem make_updateLeaf (data : List String) (ls bs : HashStrategy) (i : Int)
    (newData : String) (h0 : 0 ≤ i) (h1 : i < (data.length : Int)) :
    (MerkleTree.make data ls bs).updateLeaf i newData =
      .ok (MerkleTree.make (data.set i.toNat newData) ls bs,
           (MerkleTree.make (data.set i.toNat newData) ls bs).getRoot) := by
  have hlen : i.toNat < data.length := by omega
  have hmaplen : i.toNat < (data.map ls.hashStr).length := by
    rw [List.length_map]
    exact hlen
  have hcond : ¬(i < 0 ∨ ((data.length : Nat) : Int) ≤ i) := by omega
  have hupd := updatePath_buildLevels bs (data.map ls.hashStr) i.toNat
    (ls.hashStr newData) hmaplen
  have hms : (data.map ls.hashStr).set i.toNat (ls.hashStr newData) =
      (data.set i.toNat newData).map ls.hashStr :=
    (map_set ls.hashStr data i.toNat newData).symm
  simp only [MerkleTree.updateLeaf, MerkleTree.make, MerkleTree.getRoot, List.length_map]
  rw [if_neg hcond, buildLevels_headD, hupd, hms]

/-- C2: Incremental update equals full rebuild — after `updateLeaf(i, newData)`
on a tree built from data `D`, the tree (leaves, leaf hashes, every level and
hence the root, and the strategies) equals a fresh `MerkleTree` built with the
same strategies from `D` with position `i` replaced, `updateLeaf` returns that
tree's root digest, and `generateProof(i)` afterwards carries `newData`,
records the new root, and verifies. -/
theorem claim2_update_matches_rebuild (data : List String) (ls bs : HashStrategy)
    (t : MerkleTree) (ht : MerkleTree.create data ls bs = .ok t) (i : Int) (h0 : 0 ≤ i)
    (h1 : i < (data.length : Int)) (newData : String) :
    t.updateLeaf i newData =
      .ok (MerkleTree.make (data.set i.toNat newData) ls bs,
           (MerkleTree.make (data.set i.toNat newData) ls bs).getRoot) ∧
    ∃ p : MerkleProof,
      (MerkleTree.make (data.set i.toNat newData) ls bs).generateProof i = .ok p ∧
      p.leafData = newData ∧
      p.rootHash = (MerkleTree.make (data.set i.toNat newData) ls bs).getRoot ∧
      MerkleProofVerifier.verify ⟨ls, bs⟩ p = true := by
  obtain ⟨rfl, -⟩ := create_ok_elim ht
  refine ⟨make_updateLeaf data ls bs i newData h0 h1, ?_⟩
  have h1' : i < ((data.set i.toNat newData).length : Int) := by
    rw [List.length_set]
    exact h1
  obtain ⟨p, hgen, hdata, hroot, hver⟩ :=
    make_generateProof_verify (data.set i.toNat newData) ls bs i h0 h1'
  refine ⟨p, hgen, ?_, hroot, hver⟩
  rw [hdata]
  exact getD_set_self data i.toNat newData "" (by omega)

/-- Witness for C2 at a concrete three-leaf tree, index 1, new data "w". -/
theorem claim2_witness :
    MerkleTree.create ["x", "y", "z"] testStrategy testStrategy =
      .ok (MerkleTree.make ["x", "y", "z"] testStrategy testStrategy) ∧
    (0 : Int) ≤ 1 ∧ (1 : Int) < ((["x", "y", "z"].length : Nat) : Int) ∧
    ((MerkleTree.make ["x", "y", "z"] testStrategy testStrategy).updateLeaf 1 "w" =
      .ok (MerkleTree.make (["x", "y", "z"].set (1 : Int).toNat "w") testStrategy testStrategy,
           (MerkleTree.make (["x", "y", "z"].set (1 : Int).toNat "w") testStrategy
             testStrategy).getRoot) ∧
    ∃ p : MerkleProof,
      (MerkleTree.make (["x", "y", "z"].set (1 : Int).toNat "w") testStrategy
        testStrategy).generateProof 1 = .ok p ∧
      p.leafData = "w" ∧
      p.rootHash = (MerkleTree.make (["x", "y", "z"].set (1 : Int).toNat "w") testStrategy
        testStrategy).getRoot ∧
      MerkleProofVerifier.verify ⟨testStrategy, testStrategy⟩ p = true) :=
  ⟨rfl, by decide, by decide,
   claim2_update_matches_rebuild ["x", "y", "z"] testStrategy testStrategy
     (MerkleTree.make ["x", "y", "z"] testStrategy testStrategy) rfl 1 (by decide) (by decide) "w"⟩

/-- C6: Bounds checking — on every constructed tree, `getLeaf`, `getLeafHash`,
`generateProof` and `updateLeaf` fail with `IndexOutOfRangeError` for every
index < 0 or ≥ leafCount (in particular -1 and leafCount), and succeed for
every index in [0, leafCount). -/
theorem claim6_bounds_checking (data : List String) (ls bs : HashStrategy) (t : MerkleTree)
    (ht : MerkleTree.create data ls bs = .ok t) (index : Int) :
    ((index < 0 ∨ (t.getLeafCount : Int) ≤ index) →
      t.getLeaf index = .error .indexOutOfRange ∧
      t.getLeafHash index = .error .indexOutOfRange ∧
      t.generateProof index = .error .indexOutOfRange ∧
      ∀ d : String, t.updateLeaf index d = .error .indexOutOfRange) ∧
    (0 ≤ index → index < (t.getLeafCount : Int) →
      (∃ s, t.getLeaf index = .ok s) ∧
      (∃ hsh, t.getLeafHash index = .ok hsh) ∧
      (∃ p, t.generateProof index = .ok p) ∧
      ∀ d : String, ∃ r, t.updateLeaf index d = .ok r) := by
  obtain ⟨rfl, -⟩ := create_ok_elim ht
  have hcount : (MerkleTree.make data ls bs).getLeafCount = data.length := rfl
  constructor
  · intro hbad
    rw [hcount] at hbad
    have hc1 : index < 0 ∨ (((MerkleTree.make data ls bs).leaves.length : Nat) : Int) ≤ index := by
      simp only [MerkleTree.make]
      exact hbad
    have hc2 : index < 0 ∨
        (((MerkleTree.make data ls bs).leafHashes.length : Nat) : Int) ≤ index := by
      simp only [MerkleTree.make, List.length_map]
      exact hbad
    refine ⟨?_, ?_, ?_, fun d => ?_⟩
    · unfold MerkleTree.getLeaf
      rw [if_pos hc1]
    · unfold MerkleTree.getLeafHash
      rw [if_pos hc2]
    · unfold MerkleTree.generateProof
      rw [if_pos hc1]
    · unfold MerkleTree.updateLeaf
      rw [if_pos hc1]
  · intro h0 h1
    rw [hcount] at h1
    have hc1 : ¬(index < 0 ∨ ((MerkleTree.make data ls bs).leaves.length : Int) ≤ index) := by
      simp only [MerkleTree.make]
      omega
    have hc2 : ¬(index < 0 ∨
        ((MerkleTree.make data ls bs).leafHashes.length : Int) ≤ index) := by
      simp only [MerkleTree.make, List.length_map]
      omega
    refine ⟨⟨(MerkleTree.make data ls bs).leaves.getD index.toNat "", ?_⟩,
           ⟨(MerkleTree.make data ls bs).leafHashes.getD index.toNat [], ?_⟩, ?_,
           fun d => ⟨_, make_updateLeaf data ls bs index d h0 h1⟩⟩
    · unfold MerkleTree.getLeaf
      rw [if_neg hc1]
    · unfold MerkleTree.getLeafHash
      rw [if_neg hc2]
    · obtain ⟨p, hgen, -, -, -⟩ := make_generateProof_verify data ls bs index h0 h1
      exact ⟨p, hgen⟩

/-- Witness for C6: index -1 on a two-leaf tree fails on all four operations. -/
theorem claim6_witness :
    MerkleTree.create ["a", "b"] testStrategy testStrategy =
      .ok (MerkleTree.make ["a", "b"] testStrategy testStrategy) ∧
    ((-1 : Int) < 0 ∨
      (((MerkleTree.make ["a", "b"] testStrategy testStrategy).getLeafCount : Nat) : Int) ≤ -1) ∧
    ((MerkleTree.make ["a", "b"] testStrategy testStrategy).getLeaf (-1) =
        .error .indexOutOfRange ∧
      (MerkleTree.make ["a", "b"] testStrategy testStrategy).getLeafHash (-1) =
        .error .indexOutOfRange ∧
      (MerkleTree.make ["a", "b"] testStrategy testStrategy).generateProof (-1) =
        .error .indexOutOfRange ∧
      ∀ d : String, (MerkleTree.make ["a", "b"] testStrategy testStrategy).updateLeaf (-1) d =
        .error .indexOutOfRange) :=
  ⟨rfl, by decide,
   (claim6_bounds_checking ["a", "b"] testStrategy testStrategy
     (MerkleTree.make ["a", "b"] testStrategy testStrategy) rfl (-1)).1 (by decide)⟩

/-- C7: Empty-input rejection — constructing a MerkleTree from an empty leaf
sequence fails with `EmptyInputError`, and every successfully constructed tree
commits to at least one item. -/
theorem claim7_empty_input (ls bs : HashStrategy) :
    MerkleTree.create [] ls bs = .error .emptyInput ∧
    ∀ (data : List String) (t : MerkleTree),
      MerkleTree.create data ls bs = .ok t → 1 ≤ t.getLeafCount := by
  refine ⟨rfl, fun data t ht => ?_⟩
  obtain ⟨rfl, hne⟩ := create_ok_elim ht
  have hlen : data.length ≠ 0 := fun h => hne (List.length_eq_zero.mp h)
  show 1 ≤ data.length
  omega

/-- Witness for C7 on a one-leaf tree. -/
theorem claim7_witness :
    MerkleTree.create ["q"] testStrategy testStrategy =
      .ok (MerkleTree.make ["q"] testStrategy testStrategy) ∧
    1 ≤ (MerkleTree.make ["q"] testStrategy testStrategy).getLeafCount :=
  ⟨rfl, (claim7_empty_input testStrategy testStrategy).2 ["q"]
    (MerkleTree.make ["q"] testStrategy testStrategy) rfl⟩

/-- C8: Tagged hash construction — for every tag and message the strategy's
hash equals `SHA-256(tagHash || tagHash || msg)` with the precomputed
`tagHash = SHA-256(UTF8(tag))`; string messages are UTF-8 encoded first; the
legacy tree's `taggedHash` follows the same formula. -/
theorem claim8_tagged_hash (tag : String) (msg : Bytes) (sData : String) :
    (TaggedSha256Strategy.ofTag tag).hash msg = taggedHashSpec tag msg ∧
    (TaggedSha256Strategy.ofTag tag).tagHash = sha256 (utf8 tag) ∧
    (TaggedSha256Strategy.ofTag tag).strategy.hashStr sData = taggedHashSpec tag (utf8 sData) ∧
    legacyTaggedHash (legacyTagHash tag) msg = taggedHashSpec tag msg :=
  ⟨rfl, rfl, rfl, rfl⟩

/-- C9: Empty-string tag collapses to the default — the factory's truthiness
check makes `createStrategy(TAGGED_SHA256, { tag: "" })` identical to omitting
the tag, yielding the "Bitcoin_Transaction" strategy. -/
theorem claim9_empty_tag_collapses :
    HashStrategyFactory.createStrategy .TAGGED_SHA256 (some "") =
      HashStrategyFactory.createStrategy .TAGGED_SHA256 none ∧
    HashStrategyFactory.createStrategy .TAGGED_SHA256 (some "") =
      .taggedSha256Strategy (TaggedSha256Strategy.ofTag "Bitcoin_Transaction") ∧
    (TaggedSha256Strategy.ofTag "Bitcoin_Transaction").tag = "Bitcoin_Transaction" :=
  ⟨rfl, rfl, rfl⟩

theorem legacy_create_leafHashes (d : List String) (lt bt : String) :
    (LegacyMerkleTree.create d lt bt).leafHashes =
      d.map (fun data => legacyTaggedHash (legacyTagHash lt) (utf8 data)) := by
  unfold LegacyMerkleTree.create
  by_cases h : (d.map (fun data => legacyTaggedHash (legacyTagHash lt) (utf8 data))).length = 0
  · rw [if_pos h]
  · rw [if_neg h]

/-- C10: The legacy tree's getProof never fails — every out-of-range index
(negative or ≥ leafCount) returns the empty proof array instead of raising. -/
theorem claim10_legacy_getProof_out_of_range (leavesData : List String)
    (leafTag branchTag : String) (index : Int)
    (h : index < 0 ∨ (leavesData.length : Int) ≤ index) :
    (LegacyMerkleTree.create leavesData leafTag branchTag).getProof index = [] := by
  have hcond : index < 0 ∨
      (((LegacyMerkleTree.create leavesData leafTag branchTag).leafHashes.length : Nat) : Int)
        ≤ index := by
    rw [legacy_create_leafHashes, List.length_map]
    exact h
  unfold LegacyMerkleTree.getProof
  rw [if_pos hcond]

/-- Witness for C10 at index -1 of a one-leaf legacy tree. -/
theorem claim10_witness :
    ((-1 : Int) < 0 ∨ (((["a"] : List String).length : Nat) : Int) ≤ -1) ∧
    (LegacyMerkleTree.create ["a"] "t" "t").getProof (-1) = [] :=
  ⟨by decide, claim10_legacy_getProof_out_of_range ["a"] "t" "t" (-1) (by decide)⟩

/-- C5 counterexample: on the malformed hex sibling digest "zz" and malformed
short root "00", `verifySimple` returns `.ok false` — it does not fail with a
`MalformedEncodingError` as the claim states. -/
theorem claim5_counterexample :
    (MerkleProofVerifier.mk testStrategy testStrategy).verifySimple "x"
      [("zz", ProofDirection.RIGHT)] "00" = .ok false := rfl

/-- C5 amended: `verifySimple` never fails at all — hex inputs (malformed or
not) are silently decoded as their longest valid prefix and every outcome is
`.ok` of the verification boolean; in particular a root mismatch yields
`.ok false`, never an error. -/
theorem claim5_verifySimple_never_fails (v : MerkleProofVerifier) (leafData : String)
    (proof : List (String × ProofDirection)) (merkleRoot : String) :
    (∃ result : Bool, v.verifySimple leafData proof merkleRoot = .ok result) ∧
    ((proof.map (fun p => MerkleProofElement.mk (bufferFromHex p.1) p.2)).foldl
        (applyProofElement v) (v.leafHashStrategy.hashStr leafData) ≠ bufferFromHex merkleRoot →
      v.verifySimple leafData proof merkleRoot = .ok false) := by
  constructor
  · exact ⟨_, rfl⟩
  · intro hne
    unfold MerkleProofVerifier.verifySimple MerkleProofVerifier.verify
    dsimp only
    rw [decide_eq_false hne]

/-- Witness for the amended C5: a mismatching empty proof yields `.ok false`. -/
theorem claim5_witness :
    (MerkleProofVerifier.mk testStrategy testStrategy).verifySimple "y" [] "ff" = .ok false :=
  (claim5_verifySimple_never_fails ⟨testStrategy, testStrategy⟩ "y" [] "ff").2 (by decide)

set_option maxHeartbeats 1000000 in
set_option maxRecDepth 4096 in
theorem c4_taghash :
    legacyTagHash "Bitcoin_Transaction" = [120, 229, 47, 143, 5, 139, 123, 125, 39, 175, 83, 180, 65, 120, 28, 75, 143, 166, 20, 72, 32, 32, 171, 112, 217, 47, 193, 10, 14, 29, 98, 118] := by
  decide

set_option maxHeartbeats 1000000 in
set_option maxRecDepth 4096 in
theorem c4_leaf_aaa :
    legacyTaggedHash [120, 229, 47, 143, 5, 139, 123, 125, 39, 175, 83, 180, 65, 120, 28, 75, 143, 166, 20, 72, 32, 32, 171, 112, 217, 47, 193, 10, 14, 29, 98, 118] (utf8 "aaa") = [210, 216, 56, 114, 69, 113, 255, 117, 14, 183, 244, 152, 166, 103, 195, 47, 82, 46, 250, 226, 180, 3, 234, 230, 246, 120, 32, 122, 198, 249, 120, 222] := by
  decide

set_option maxHeartbeats 1000000 in
set_option maxRecDepth 4096 in
theorem c4_leaf_bbb :
    legacyTaggedHash [120, 229, 47, 143, 5, 139, 123, 125, 39, 175, 83, 180, 65, 120, 28, 75, 143, 166, 20, 72, 32, 32, 171, 112, 217, 47, 193, 10, 14, 29, 98, 118] (utf8 "bbb") = [124, 223, 112, 20, 19, 6, 46, 171, 160, 32, 175, 131, 68, 26, 103, 98, 238, 41, 16, 227, 107, 24, 5, 186, 208, 114, 16, 59, 2, 87, 244, 65] := by
  decide

set_option maxHeartbeats 1000000 in
set_option maxRecDepth 4096 in
theorem c4_leaf_ccc :
    legacyTaggedHash [120, 229, 47, 143, 5, 139, 123, 125, 39, 175, 83, 180, 65, 120, 28, 75, 143, 166, 20, 72, 32, 32, 171, 112, 217, 47, 193, 10, 14, 29, 98, 118] (utf8 "ccc") = [187, 89, 195, 30, 254, 76, 224, 175, 224, 39, 5, 50, 214, 160, 76, 241, 200, 237, 186, 164, 44, 37, 92, 244, 161, 255, 12, 167, 152, 174, 83, 79] := by
  decide

set_option maxHeartbeats 1000000 in
set_option maxRecDepth 4096 in
theorem c4_pair_ab :
    legacyTaggedHash [120, 229, 47, 143, 5, 139, 123, 125, 39, 175, 83, 180, 65, 120, 28, 75, 143, 166, 20, 72, 32, 32, 171, 112, 217, 47, 193, 10, 14, 29, 98, 118] (([210, 216, 56, 114, 69, 113, 255, 117, 14, 183, 244, 152, 166, 103, 195, 47, 82, 46, 250, 226, 180, 3, 234, 230, 246, 120, 32, 122, 198, 249, 120, 222] : Bytes) ++ [124, 223, 112, 20, 19, 6, 46, 171, 160, 32, 175, 131, 68, 26, 103, 98, 238, 41, 16, 227, 107, 24, 5, 186, 208, 114, 16, 59, 2, 87, 244, 65]) = [99, 27, 174, 66, 186, 88, 116, 8, 167, 65, 250, 125, 72, 42, 149, 93, 5, 156, 170, 71, 28, 93, 102, 84, 141, 68, 166, 237, 35, 78, 120, 44] := by
  decide

set_option maxHeartbeats 1000000 in
set_option maxRecDepth 4096 in
theorem c4_pair_cc :
    legacyTaggedHash [120, 229, 47, 143, 5, 139, 123, 125, 39, 175, 83, 180, 65, 120, 28, 75, 143, 166, 20, 72, 32, 32, 171, 112, 217, 47, 193, 10, 14, 29, 98, 118] (([187, 89, 195, 30, 254, 76, 224, 175, 224, 39, 5, 50, 214, 160, 76, 241, 200, 237, 186, 164, 44, 37, 92, 244, 161, 255, 12, 167, 152, 174, 83, 79] : Bytes) ++ [187, 89, 195, 30, 254, 76, 224, 175, 224, 39, 5, 50, 214, 160, 76, 241, 200, 237, 186, 164, 44, 37, 92, 244, 161, 255, 12, 167, 152, 174, 83, 79]) = [91, 40, 244, 177, 113, 122, 2, 213, 127, 34, 65, 180, 142, 116, 193, 194, 143, 46, 102, 248, 93, 86, 89, 231, 23, 195, 168, 162, 61, 4, 111, 199] := by
  decide

set_option maxHeartbeats 1000000 in
set_option maxRecDepth 4096 in
theorem c4_root_duplicate :
    legacyTaggedHash [120, 229, 47, 143, 5, 139, 123, 125, 39, 175, 83, 180, 65, 120, 28, 75, 143, 166, 20, 72, 32, 32, 171, 112, 217, 47, 193, 10, 14, 29, 98, 118] (([99, 27, 174, 66, 186, 88, 116, 8, 167, 65, 250, 125, 72, 42, 149, 93, 5, 156, 170, 71, 28, 93, 102, 84, 141, 68, 166, 237, 35, 78, 120, 44] : Bytes) ++ [91, 40, 244, 177, 113, 122, 2, 213, 127, 34, 65, 180, 142, 116, 193, 194, 143, 46, 102, 248, 93, 86, 89, 231, 23, 195, 168, 162, 61, 4, 111, 199]) = [135, 156, 77, 24, 76, 116, 159, 96, 233, 29, 70, 209, 225, 199, 218, 233, 129, 111, 99, 71, 82, 48, 55, 136, 39, 189, 207, 209, 152, 236, 45, 60] := by
  decide

set_option maxHeartbeats 1000000 in
set_option maxRecDepth 4096 in
theorem c4_root_carry :
    legacyTaggedHash [120, 229, 47, 143, 5, 139, 123, 125, 39, 175, 83, 180, 65, 120, 28, 75, 143, 166, 20, 72, 32, 32, 171, 112, 217, 47, 193, 10, 14, 29, 98, 118] (([99, 27, 174, 66, 186, 88, 116, 8, 167, 65, 250, 125, 72, 42, 149, 93, 5, 156, 170, 71, 28, 93, 102, 84, 141, 68, 166, 237, 35, 78, 120, 44] : Bytes) ++ [187, 89, 195, 30, 254, 76, 224, 175, 224, 39, 5, 50, 214, 160, 76, 241, 200, 237, 186, 164, 44, 37, 92, 244, 161, 255, 12, 167, 152, 174, 83, 79]) = [39, 251, 60, 19, 220, 44, 183, 126, 179, 113, 215, 16, 210, 1, 85, 140, 55, 126, 28, 123, 210, 170, 129, 225, 243, 170, 151, 164, 107, 197, 155, 83] := by
  decide

/-- A successful legacy construction's root is the root of the built levels
over the leaf hashes. -/
theorem legacy_create_root (d : List String) (lt bt : String)
    (h : (d.map (fun data => legacyTaggedHash (legacyTagHash lt) (utf8 data))).length ≠ 0) :
    (LegacyMerkleTree.create d lt bt).root =
      rootOf (legacyBuildLevels (legacyTagHash bt)
        (d.map (fun data => legacyTaggedHash (legacyTagHash lt) (utf8 data)))) := by
  unfold LegacyMerkleTree.create
  rw [if_neg h]

/-- A built tree's root is the root of the built levels over the leaf hashes. -/
theorem make_getRoot (d : List String) (ls bs : HashStrategy) :
    (MerkleTree.make d ls bs).getRoot = rootOf (buildLevels bs (d.map ls.hashStr)) := rfl

/-- `btcStrategy` computes exactly the legacy tagged hash with the default tag. -/
theorem c4_bridge (x : Bytes) :
    btcStrategy.hash x = legacyTaggedHash (legacyTagHash "Bitcoin_Transaction") x := rfl

/-- `btcStrategy` on string data computes the legacy tagged hash of its UTF-8. -/
theorem c4_bridge_str (s : String) :
    btcStrategy.hashStr s = legacyTaggedHash (legacyTagHash "Bitcoin_Transaction") (utf8 s) := rfl

theorem c4_leafhashes :
    ["aaa", "bbb", "ccc"].map
        (fun data => legacyTaggedHash (legacyTagHash "Bitcoin_Transaction") (utf8 data)) =
      [[210, 216, 56, 114, 69, 113, 255, 117, 14, 183, 244, 152, 166, 103, 195, 47, 82, 46, 250, 226, 180, 3, 234, 230, 246, 120, 32, 122, 198, 249, 120, 222],
       [124, 223, 112, 20, 19, 6, 46, 171, 160, 32, 175, 131, 68, 26, 103, 98, 238, 41, 16, 227, 107, 24, 5, 186, 208, 114, 16, 59, 2, 87, 244, 65],
       [187, 89, 195, 30, 254, 76, 224, 175, 224, 39, 5, 50, 214, 160, 76, 241, 200, 237, 186, 164, 44, 37, 92, 244, 161, 255, 12, 167, 152, 174, 83, 79]] := by
  simp only [List.map_cons, List.map_nil, c4_taghash, c4_leaf_aaa, c4_leaf_bbb, c4_leaf_ccc]

theorem c4_new_leafhashes :
    ["aaa", "bbb", "ccc"].map btcStrategy.hashStr =
      [[210, 216, 56, 114, 69, 113, 255, 117, 14, 183, 244, 152, 166, 103, 195, 47, 82, 46, 250, 226, 180, 3, 234, 230, 246, 120, 32, 122, 198, 249, 120, 222],
       [124, 223, 112, 20, 19, 6, 46, 171, 160, 32, 175, 131, 68, 26, 103, 98, 238, 41, 16, 227, 107, 24, 5, 186, 208, 114, 16, 59, 2, 87, 244, 65],
       [187, 89, 195, 30, 254, 76, 224, 175, 224, 39, 5, 50, 214, 160, 76, 241, 200, 237, 186, 164, 44, 37, 92, 244, 161, 255, 12, 167, 152, 174, 83, 79]] := by
  simp only [List.map_cons, List.map_nil, c4_bridge_str, c4_taghash, c4_leaf_aaa, c4_leaf_bbb,
    c4_leaf_ccc]

theorem c4_legacy_root_shape :
    rootOf (legacyBuildLevels [120, 229, 47, 143, 5, 139, 123, 125, 39, 175, 83, 180, 65, 120, 28, 75, 143, 166, 20, 72, 32, 32, 171, 112, 217, 47, 193, 10, 14, 29, 98, 118]
        [[210, 216, 56, 114, 69, 113, 255, 117, 14, 183, 244, 152, 166, 103, 195, 47, 82, 46, 250, 226, 180, 3, 234, 230, 246, 120, 32, 122, 198, 249, 120, 222],
         [124, 223, 112, 20, 19, 6, 46, 171, 160, 32, 175, 131, 68, 26, 103, 98, 238, 41, 16, 227, 107, 24, 5, 186, 208, 114, 16, 59, 2, 87, 244, 65],
         [187, 89, 195, 30, 254, 76, 224, 175, 224, 39, 5, 50, 214, 160, 76, 241, 200, 237, 186, 164, 44, 37, 92, 244, 161, 255, 12, 167, 152, 174, 83, 79]]) =
      legacyTaggedHash [120, 229, 47, 143, 5, 139, 123, 125, 39, 175, 83, 180, 65, 120, 28, 75, 143, 166, 20, 72, 32, 32, 171, 112, 217, 47, 193, 10, 14, 29, 98, 118]
        (legacyTaggedHash [120, 229, 47, 143, 5, 139, 123, 125, 39, 175, 83, 180, 65, 120, 28, 75, 143, 166, 20, 72, 32, 32, 171, 112, 217, 47, 193, 10, 14, 29, 98, 118]
            (([210, 216, 56, 114, 69, 113, 255, 117, 14, 183, 244, 152, 166, 103, 195, 47, 82, 46, 250, 226, 180, 3, 234, 230, 246, 120, 32, 122, 198, 249, 120, 222] : Bytes) ++ [124, 223, 112, 20, 19, 6, 46, 171, 160, 32, 175, 131, 68, 26, 103, 98, 238, 41, 16, 227, 107, 24, 5, 186, 208, 114, 16, 59, 2, 87, 244, 65]) ++
          legacyTaggedHash [120, 229, 47, 143, 5, 139, 123, 125, 39, 175, 83, 180, 65, 120, 28, 75, 143, 166, 20, 72, 32, 32, 171, 112, 217, 47, 193, 10, 14, 29, 98, 118]
            (([187, 89, 195, 30, 254, 76, 224, 175, 224, 39, 5, 50, 214, 160, 76, 241, 200, 237, 186, 164, 44, 37, 92, 244, 161, 255, 12, 167, 152, 174, 83, 79] : Bytes) ++ [187, 89, 195, 30, 254, 76, 224, 175, 224, 39, 5, 50, 214, 160, 76, 241, 200, 237, 186, 164, 44, 37, 92, 244, 161, 255, 12, 167, 152, 174, 83, 79])) := rfl

theorem c4_new_root_shape :
    rootOf (buildLevels btcStrategy
        [[210, 216, 56, 114, 69, 113, 255, 117, 14, 183, 244, 152, 166, 103, 195, 47, 82, 46, 250, 226, 180, 3, 234, 230, 246, 120, 32, 122, 198, 249, 120, 222],
         [124, 223, 112, 20, 19, 6, 46, 171, 160, 32, 175, 131, 68, 26, 103, 98, 238, 41, 16, 227, 107, 24, 5, 186, 208, 114, 16, 59, 2, 87, 244, 65],
         [187, 89, 195, 30, 254, 76, 224, 175, 224, 39, 5, 50, 214, 160, 76, 241, 200, 237, 186, 164, 44, 37, 92, 244, 161, 255, 12, 167, 152, 174, 83, 79]]) =
      btcStrategy.hash (btcStrategy.hash (([210, 216, 56, 114, 69, 113, 255, 117, 14, 183, 244, 152, 166, 103, 195, 47, 82, 46, 250, 226, 180, 3, 234, 230, 246, 120, 32, 122, 198, 249, 120, 222] : Bytes) ++ [124, 223, 112, 20, 19, 6, 46, 171, 160, 32, 175, 131, 68, 26, 103, 98, 238, 41, 16, 227, 107, 24, 5, 186, 208, 114, 16, 59, 2, 87, 244, 65]) ++ [187, 89, 195, 30, 254, 76, 224, 175, 224, 39, 5, 50, 214, 160, 76, 241, 200, 237, 186, 164, 44, 37, 92, 244, 161, 255, 12, 167, 152, 174, 83, 79]) := rfl

theorem c4_legacy_root_value :
    (LegacyMerkleTree.create ["aaa", "bbb", "ccc"] "Bitcoin_Transaction"
      "Bitcoin_Transaction").root = [135, 156, 77, 24, 76, 116, 159, 96, 233, 29, 70, 209, 225, 199, 218, 233, 129, 111, 99, 71, 82, 48, 55, 136, 39, 189, 207, 209, 152, 236, 45, 60] := by
  rw [legacy_create_root _ _ _ (by simp), c4_leafhashes, c4_taghash, c4_legacy_root_shape,
    c4_pair_ab, c4_pair_cc, c4_root_duplicate]

theorem c4_new_root_value :
    (MerkleTree.make ["aaa", "bbb", "ccc"] btcStrategy btcStrategy).getRoot = [39, 251, 60, 19, 220, 44, 183, 126, 179, 113, 215, 16, 210, 1, 85, 140, 55, 126, 28, 123, 210, 170, 129, 225, 243, 170, 151, 164, 107, 197, 155, 83] := by
  rw [make_getRoot, c4_new_leafhashes, c4_new_root_shape, c4_bridge, c4_bridge, c4_taghash,
    c4_pair_ab, c4_root_carry]

/-- C4: The two level-construction policies are incompatible — for the
odd-length leaf sequence ["aaa", "bbb", "ccc"] under tagged SHA-256 with the
same tag "Bitcoin_Transaction" for leaves and branches, the legacy
duplicate-the-last-node builder (src/merkleTree.ts) and the carry-forward
builder (src/tree/MerkleTree.ts) produce different root digests. -/
theorem claim4_divergent_policies :
    (LegacyMerkleTree.create ["aaa", "bbb", "ccc"] "Bitcoin_Transaction"
        "Bitcoin_Transaction").root ≠
      (MerkleTree.make ["aaa", "bbb", "ccc"] btcStrategy btcStrategy).getRoot := by
  rw [c4_legacy_root_value, c4_new_root_value]
  decide
